import Mathlib

/-!
Verification of the circuit-graph construction component and the
measurement-annotation helpers of the repository.

The circuit-graph component (`CircuitGraph` and its query API) is modelled
from the specification: the repository ships its unit tests
(`tests/test_circuit_graph.py`) but not `circuit_graph.py` itself, so every
definition in the first half of this file is a shallow embedding of the
behaviour described in the specification, cross-checked against the concrete
expectations recorded in the shipped tests.

The measurement helpers (`expval`, `var`, `sample`, `probs`) are translated
directly from `pennylane/measure.py`, which is part of the sources; only the
surrounding context object (`_current_context` with its queues) is modelled
from the specification.
-/

/-- Modelled from the spec: a queue entry of a circuit. `Operation` carries a
gate kind, its ordered numeric parameters, the ordered wires it acts on, and a
flag marking terminal measurement observables (the spec's `Observable`
entries, which sit at the end of the queue). Its position in the queue is its
`queue_idx`; throughout, graph nodes are identified by that position. -/
structure Operation where
  name : String
  params : List Int
  wires : List Nat
  isObs : Bool
deriving DecidableEq, Repr

/-- Whether the operation at queue position `i` of `ops` acts on wire `w`. -/
def opHasWire (ops : List Operation) (i w : Nat) : Bool :=
  match ops.get? i with
  | some op => decide (w ∈ op.wires)
  | none => false

/-- Modelled from the spec: `wire_indices(wire)` — the ordered list of queue
indices of the operations and observables acting on the given wire. -/
def wire_indices (ops : List Operation) (w : Nat) : List Nat :=
  (List.range ops.length).filter (fun i => opHasWire ops i w)

/-- Consecutive pairs of a list: `[a,b,c] ↦ [(a,b),(b,c)]`. -/
def consecPairs : List Nat → List (Nat × Nat)
  | [] => []
  | [_] => []
  | a :: b :: rest => (a, b) :: consecPairs (b :: rest)

/-- Modelled from the spec: the edge list of the dependency DAG. For every
wire, the operations acting on it are chained in declaration order
(nearest-subsequent-per-wire semantics, §4.1 of the spec). -/
def buildEdges (ops : List Operation) : List (Nat × Nat) :=
  ((ops.map Operation.wires).flatten.dedup).flatMap
    (fun w => consecPairs (wire_indices ops w))

/-- Modelled from the spec: `CircuitGraph` owns the full ordered queue of
operations followed by observables, the derived DAG edge list (computed once
at construction), and `variable_deps`, the mapping from each free symbolic
parameter index to the queue indices of the operations depending on it,
ordered by first occurrence in the queue. -/
structure CircuitGraph where
  queue : List Operation
  edges : List (Nat × Nat)
  variable_deps : List (Nat × List Nat)
deriving DecidableEq, Repr

/-- Modelled from the spec: the constructor — build the DAG from an ordered
queue of operations followed by observables. -/
def CircuitGraph.fromOps (ops : List Operation) (vd : List (Nat × List Nat)) :
    CircuitGraph :=
  ⟨ops, buildEdges ops, vd⟩

/-- The nodes of the DAG: one per queue entry, identified by queue index. -/
def CircuitGraph.nodes (c : CircuitGraph) : List Nat :=
  List.range c.queue.length

/-- Edge test on the stored edge list. -/
def CircuitGraph.edgeB (c : CircuitGraph) (a b : Nat) : Bool :=
  decide ((a, b) ∈ c.edges)

/-- Fuel-bounded reachability along DAG edges (strictly positive path
length). Fuel `c.queue.length` suffices because every edge of a constructed
graph moves strictly forward in the queue. -/
def CircuitGraph.reachFuel (c : CircuitGraph) : Nat → Nat → Nat → Bool
  | 0, _, _ => false
  | fuel + 1, a, b =>
    c.edgeB a b ||
      (List.range c.queue.length).any
        (fun m => c.edgeB a m && c.reachFuel fuel m b)

/-- Node `a` is a strict ancestor of `b`: some nonempty edge path leads from `a`
to `b`. -/
def CircuitGraph.isAncestor (c : CircuitGraph) (a b : Nat) : Bool :=
  c.reachFuel c.queue.length a b

/-- Strict reachability as an inductive predicate (nonempty edge paths). -/
inductive CircuitGraph.Reaches (c : CircuitGraph) : Nat → Nat → Prop
  | single {a b : Nat} : c.edgeB a b = true → CircuitGraph.Reaches c a b
  | cons {a m b : Nat} : c.edgeB a m = true → CircuitGraph.Reaches c m b →
      CircuitGraph.Reaches c a b

/-- Modelled from the spec: `ancestors(s)` — the union of the strict
ancestors of the members of `s`, minus `s` itself, in queue order. -/
def CircuitGraph.ancestors (c : CircuitGraph) (s : List Nat) : List Nat :=
  (List.range c.queue.length).filter
    (fun m => s.any (fun o => c.isAncestor m o) && !(s.contains m))

/-- Modelled from the spec: `descendants(s)` — the union of the strict
descendants of the members of `s`, minus `s` itself, in queue order. -/
def CircuitGraph.descendants (c : CircuitGraph) (s : List Nat) : List Nat :=
  (List.range c.queue.length).filter
    (fun m => s.any (fun o => c.isAncestor o m) && !(s.contains m))

/-- A layer: queue indices of its operations together with the indices of
the free parameters those operations depend on. -/
structure Layer where
  ops : List Nat
  param_inds : List Nat
deriving DecidableEq, Repr

/-- One step of the layering scan: place the operation `opIdx`, depending on
free parameter `pIdx`, either into the layer under assembly or into a fresh
layer when it depends on a member of the current one. -/
def layerStep (c : CircuitGraph) (pIdx : Nat) (acc : List Layer × Layer)
    (opIdx : Nat) : List Layer × Layer :=
  if acc.2.ops.any (fun o => c.isAncestor o opIdx) then
    (acc.1 ++ [acc.2], ⟨[opIdx], [pIdx]⟩)
  else
    (acc.1, ⟨acc.2.ops ++ [opIdx], acc.2.param_inds ++ [pIdx]⟩)

/-- Modelled from the spec: the `layers` property. Scanning `variable_deps`
in order (each free parameter with the operations depending on it, sorted by
first occurrence in the queue), operations are grouped greedily: an operation
starts a new layer exactly when it depends on an operation already in the
layer under assembly. Each layer records, per placed operation, the free
parameter index under which it was placed. -/
def CircuitGraph.layers (c : CircuitGraph) : List Layer :=
  let r := c.variable_deps.foldl
    (fun acc pe => pe.2.foldl (layerStep c pe.1) acc) ([], ⟨[], []⟩)
  r.1 ++ [r.2]

/-- A 4-tuple yielded by `iterate_layers`: operations preceding the layer,
the layer's operations, its free-parameter indices, and the operations and
observables following the layer. All entries are queue indices. -/
structure LayerData where
  pre_queue : List Nat
  ops : List Nat
  param_inds : List Nat
  post_queue : List Nat
deriving DecidableEq, Repr

/-- Modelled from the spec: `iterate_layers()` — for each layer, yield its
ancestors in queue order, its operations, its parameter indices, and its
descendants (following operations and observables) in queue order. -/
def CircuitGraph.iterate_layers (c : CircuitGraph) : List LayerData :=
  c.layers.map (fun l => ⟨c.ancestors l.ops, l.ops, l.param_inds, c.descendants l.ops⟩)

/-- Modelled from the spec: `update_node(old, new)` — in-place node
replacement, the old node being identified by its queue position
(`queue_idx`); the stored DAG keeps all edges, only the node payload at that
position changes. -/
def CircuitGraph.update_node (c : CircuitGraph) (oldIdx : Nat)
    (new : Operation) : CircuitGraph :=
  { c with queue := c.queue.set oldIdx new }

/-- The `operations` property: the non-observable queue entries. -/
def CircuitGraph.operations (c : CircuitGraph) : List Operation :=
  c.queue.filter (fun op => !op.isObs)

/-- The `observables` property: the observable queue entries. -/
def CircuitGraph.observables (c : CircuitGraph) : List Operation :=
  c.queue.filter (fun op => op.isObs)

/-- The spec's declarative edge condition, stated in the spec's own words:
`b` is the closest operation or observable subsequent to `a` in declaration
order touching some wire that `a` also touches. -/
def nearestSubsequentOnWire (ops : List Operation) (a b : Nat) : Prop :=
  ∃ w oa ob, ops.get? a = some oa ∧ ops.get? b = some ob ∧
    w ∈ oa.wires ∧ w ∈ ob.wires ∧ a < b ∧
    ∀ k ok, a < k → k < b → ops.get? k = some ok → w ∉ ok.wires

/-!
## Measurement helpers, translated from `pennylane/measure.py`

Python operator objects are mutable and compared by identity, so an operator
is represented by an immutable description (`OpNode`) carrying a numeric
identity, and the mutable world (each operator's `return_type` attribute and
the current context's queues) lives in an explicit state (`MState`) threaded
through the functions.
-/

/-- The return kinds assigned by the measurement functions
(`pennylane.operation.Expectation`, `Variance`, `Sample`, `Probability`). -/
inductive ReturnType where
  | Expectation
  | Variance
  | Sample
  | Probability
deriving DecidableEq, Repr

/-- The typed functional error raised by the measurement functions
(`pennylane.qnodes.QuantumFunctionError`). -/
inductive QuantumFunctionError where
  | err (msg : String)
deriving DecidableEq, Repr

/-- An operator argument as the measurement functions see it: its identity,
its `name`, whether it is an instance of `Observable`, whether it is a
`Tensor` (and then the identities of its constituent observables `obs`), and
its wires. -/
structure OpNode where
  id : Nat
  name : String
  isObservable : Bool
  tensorObs : Option (List Nat)
  wires : List Nat
deriving DecidableEq, Repr

/-- Modelled from the spec: the current QNode context
(`qml._current_context`), holding the operation queue and the observable
queue; entries are operator identities. -/
structure Context where
  queue : List Nat
  obs_queue : List Nat
deriving DecidableEq, Repr

/-- The mutable world of `measure.py`: every operator's `return_type`
attribute (an association list, most recent assignment first) and the
optional current context. -/
structure MState where
  return_types : List (Nat × ReturnType)
  context : Option Context
deriving DecidableEq, Repr

/-- Assignment `op.return_type = r`. -/
def set_return_type (rts : List (Nat × ReturnType)) (i : Nat)
    (r : ReturnType) : List (Nat × ReturnType) :=
  (i, r) :: rts

/-- Read of `op.return_type` (`none` when never assigned). -/
def get_return_type (rts : List (Nat × ReturnType)) (i : Nat) :
    Option ReturnType :=
  (rts.find? (fun p => p.1 == i)).map (fun p => p.2)

/-- Translated from `measure.py`: remove `op` from the context's operation
queue if present (`list.remove` drops the first occurrence). -/
def _remove_if_in_queue (ctx : Context) (opId : Nat) : Context :=
  if opId ∈ ctx.queue then { ctx with queue := ctx.queue.erase opId } else ctx

/-- Translated from `measure.py`: the queue-cleaning step shared by
`expval`, `var` and `sample` — a `Tensor` has each constituent observable
removed, any other observable is removed itself. -/
def removeFromQueue (op : OpNode) (ctx : Context) : Context :=
  match op.tensorObs with
  | some obsIds => obsIds.foldl _remove_if_in_queue ctx
  | none => _remove_if_in_queue ctx op.id

/-- Modelled from the spec: `_current_context._append_op(op)` — append the
observable to the context's observable queue. -/
def _append_op (ctx : Context) (opId : Nat) : Context :=
  { ctx with obs_queue := ctx.obs_queue ++ [opId] }

/-- Translated from `measure.py`: `expval(op)`. The result pairs the final
state with either the raised `QuantumFunctionError` or the returned
operator's identity; the statements are embedded in source order. -/
def expval (op : OpNode) (s : MState) :
    MState × Except QuantumFunctionError Nat :=
  if op.isObservable = false then
    (s, .error (.err (op.name ++ " is not an observable: cannot be used with expval")))
  else
    let s1 : MState := match s.context with
      | none => s
      | some ctx => { s with context := some (removeFromQueue op ctx) }
    let s2 : MState :=
      { s1 with return_types := set_return_type s1.return_types op.id .Expectation }
    let s3 : MState := match s2.context with
      | none => s2
      | some ctx => { s2 with context := some (_append_op ctx op.id) }
    (s3, .ok op.id)

/-- Translated from `measure.py`: `var(op)`. -/
def var (op : OpNode) (s : MState) :
    MState × Except QuantumFunctionError Nat :=
  if op.isObservable = false then
    (s, .error (.err (op.name ++ " is not an observable: cannot be used with var")))
  else
    let s1 : MState := match s.context with
      | none => s
      | some ctx => { s with context := some (removeFromQueue op ctx) }
    let s2 : MState :=
      { s1 with return_types := set_return_type s1.return_types op.id .Variance }
    let s3 : MState := match s2.context with
      | none => s2
      | some ctx => { s2 with context := some (_append_op ctx op.id) }
    (s3, .ok op.id)

/-- Translated from `measure.py`: `sample(op)`. -/
def sample (op : OpNode) (s : MState) :
    MState × Except QuantumFunctionError Nat :=
  if op.isObservable = false then
    (s, .error (.err (op.name ++ " is not an observable: cannot be used with sample")))
  else
    let s1 : MState := match s.context with
      | none => s
      | some ctx => { s with context := some (removeFromQueue op ctx) }
    let s2 : MState :=
      { s1 with return_types := set_return_type s1.return_types op.id .Sample }
    let s3 : MState := match s2.context with
      | none => s2
      | some ctx => { s2 with context := some (_append_op ctx op.id) }
    (s3, .ok op.id)

/-- Translated from `measure.py`: `probs(wires)` — build a fresh `Identity`
observable on the given wires (its identity supplied by `freshId`), tag it
with `Probability`, queue it, and return it. -/
def probs (ws : List Nat) (freshId : Nat) (s : MState) : MState × OpNode :=
  let op : OpNode :=
    { id := freshId, name := "Identity", isObservable := true,
      tensorObs := none, wires := ws }
  let s1 : MState :=
    { s with return_types := set_return_type s.return_types freshId .Probability }
  let s2 : MState := match s1.context with
    | none => s1
    | some ctx => { s1 with context := some (_append_op ctx freshId) }
  (s2, op)

/-!
## Concrete circuits from the shipped tests

`exOps` is the queue of `TestCircuitGraph`'s `ops` fixture; `cvOps` with
`cvDeps` is the circuit constructed by `test_layers` / `test_iterate_layers`
from the `parameterized_circuit` fixture.
-/

/-- The `ops` fixture of the shipped tests: seven gates followed by two
observables. -/
def exOps : List Operation :=
  [⟨"RX", [43], [0], false⟩,
   ⟨"RY", [35], [1], false⟩,
   ⟨"RZ", [35], [2], false⟩,
   ⟨"CNOT", [], [0, 1], false⟩,
   ⟨"Hadamard", [], [2], false⟩,
   ⟨"CNOT", [], [2, 0], false⟩,
   ⟨"PauliX", [], [1], false⟩,
   ⟨"PauliX", [], [0], true⟩,
   ⟨"Hermitian", [], [1, 2], true⟩]

/-- The circuit of the `test_dependence` / ancestors-descendants tests. -/
def exC : CircuitGraph := CircuitGraph.fromOps exOps []

/-- The queue built by the `parameterized_circuit` fixture: seven CV gates
(the fifth carrying only the constant parameter `1`) and three observables. -/
def cvOps : List Operation :=
  [⟨"Rotation", [1], [0], false⟩,
   ⟨"Rotation", [2], [1], false⟩,
   ⟨"Rotation", [3], [2], false⟩,
   ⟨"Beamsplitter", [4, 1], [0, 1], false⟩,
   ⟨"Rotation", [1], [0], false⟩,
   ⟨"Rotation", [5], [1], false⟩,
   ⟨"Rotation", [6], [2], false⟩,
   ⟨"NumberOperator", [], [0], true⟩,
   ⟨"NumberOperator", [], [1], true⟩,
   ⟨"NumberOperator", [], [2], true⟩]

/-- The `variable_deps` of the `parameterized_circuit` fixture: free parameters
`a..f` in first-occurrence order with the queue indices depending on them;
the gate at queue index 4 has no free parameter. -/
def cvDeps : List (Nat × List Nat) :=
  [(0, [0]), (1, [1]), (2, [2]), (3, [3]), (4, [5]), (5, [6])]

/-- The circuit of `test_layers` / `test_iterate_layers`. -/
def cvC : CircuitGraph := CircuitGraph.fromOps cvOps cvDeps



/-- The `wire_indices(wire)` method of a circuit (the list-level
`wire_indices` applied to the circuit's queue). -/
def CircuitGraph.wire_indices (c : CircuitGraph) (w : Nat) : List Nat :=
  (List.range c.queue.length).filter (fun i => opHasWire c.queue i w)

/-- The operations placed so far by the layering scan, in placement order. -/
def flatOps (acc : List Layer × Layer) : List Nat :=
  acc.1.flatMap Layer.ops ++ acc.2.ops

/-- The invariant of a finished or in-progress layer: no operation in it is
an ancestor of a later-placed one, the parameter tags match the operations
one for one, and every (parameter, operation) pair comes from
`variable_deps`. -/
def LayerOk (c : CircuitGraph) (l : Layer) : Prop :=
  l.ops.Pairwise (fun a b => c.isAncestor a b = false) ∧
  l.param_inds.length = l.ops.length ∧
  ∀ q ∈ l.param_inds.zip l.ops, ∃ e ∈ c.variable_deps, e.1 = q.1 ∧ q.2 ∈ e.2

/-- The scan invariant: all completed layers and the layer under assembly
satisfy `LayerOk`. -/
def AccOk (c : CircuitGraph) (acc : List Layer × Layer) : Prop :=
  (∀ l ∈ acc.1, LayerOk c l) ∧ LayerOk c acc.2

/-- A non-observable gate argument, as in the example circuits of
`measure.py`'s docstrings. -/
def rxGate : OpNode := ⟨0, "RX", false, none, [0]⟩

/-- An observable argument, as in the example circuits of `measure.py`'s
docstrings. -/
def pauliYObs : OpNode := ⟨1, "PauliY", true, none, [0]⟩

/-- A measurement state with an active context whose operation queue holds
both example operators. -/
def exState : MState := ⟨[], some ⟨[0, 1], []⟩⟩

/-!
## Helper lemmas: the per-wire chain and the declarative edge condition
-/

/-- Membership in the consecutive-pairs list of a strictly increasing list:
exactly the pairs of members with nothing of the list strictly between. -/
theorem consecPairs_mem {l : List Nat} (hl : l.Pairwise (· < ·)) {a b : Nat} :
    (a, b) ∈ consecPairs l ↔
      a ∈ l ∧ b ∈ l ∧ a < b ∧ ∀ k ∈ l, a < k → k < b → False := by
  induction l with
  | nil => simp [consecPairs]
  | cons x tl ih =>
    cases tl with
    | nil =>
      simp only [consecPairs, List.not_mem_nil, false_iff]
      rintro ⟨ha, hb, hab, -⟩
      rw [List.mem_singleton] at ha hb
      omega
    | cons y rest =>
      rcases List.pairwise_cons.mp hl with ⟨hx, h2⟩
      have hxy : x < y := hx y (List.mem_cons_self y rest)
      have hrest : ∀ z ∈ rest, y < z := (List.pairwise_cons.mp h2).1
      have ihy := ih h2
      constructor
      · intro hmem
        rcases List.mem_cons.mp hmem with heq | htail
        · rw [Prod.mk.injEq] at heq
          obtain ⟨rfl, rfl⟩ := heq
          refine ⟨List.mem_cons_self _ _,
            List.mem_cons_of_mem _ (List.mem_cons_self _ _), hxy, ?_⟩
          intro k hk hak hkb
          rcases List.mem_cons.mp hk with rfl | hk'
          · exact absurd hak (lt_irrefl _)
          · rcases List.mem_cons.mp hk' with rfl | hk''
            · exact absurd hkb (lt_irrefl _)
            · have := hrest k hk''
              omega
        · obtain ⟨ha, hb, hab, hbet⟩ := ihy.mp htail
          refine ⟨List.mem_cons_of_mem x ha, List.mem_cons_of_mem x hb, hab, ?_⟩
          intro k hk hak hkb
          rcases List.mem_cons.mp hk with rfl | hk'
          · have := hx a ha
            omega
          · exact hbet k hk' hak hkb
      · rintro ⟨ha, hb, hab, hbet⟩
        rcases List.mem_cons.mp ha with rfl | ha'
        · rcases List.mem_cons.mp hb with rfl | hb'
          · exact absurd hab (lt_irrefl _)
          · rcases List.mem_cons.mp hb' with rfl | hb''
            · exact List.mem_cons_self _ _
            · have hyb : y < b := hrest b hb''
              exact (hbet y (List.mem_cons_of_mem _ (List.mem_cons_self _ _)) hxy hyb).elim
        · have hb' : b ∈ y :: rest := by
            rcases List.mem_cons.mp hb with rfl | hb' 
            · have := hx a ha'
              omega
            · exact hb'
          have hmem := ihy.mpr
            ⟨ha', hb', hab, fun k hk hak hkb => hbet k (List.mem_cons_of_mem x hk) hak hkb⟩
          exact List.mem_cons_of_mem _ hmem

/-- Unfolding of `opHasWire` to queue lookup. -/
theorem opHasWire_iff {ops : List Operation} {i w : Nat} :
    opHasWire ops i w = true ↔ ∃ op, ops.get? i = some op ∧ w ∈ op.wires := by
  unfold opHasWire
  cases h : ops.get? i with
  | none => simp
  | some op => simp

/-- The list `wire_indices ops w` is strictly increasing. -/
theorem wire_indices_pairwise (ops : List Operation) (w : Nat) :
    (wire_indices ops w).Pairwise (· < ·) :=
  (List.pairwise_lt_range ops.length).filter _

/-- Membership in `wire_indices`: exactly the queue positions whose entry
acts on the wire. -/
theorem mem_wire_indices {ops : List Operation} {w i : Nat} :
    i ∈ wire_indices ops w ↔ ∃ op, ops.get? i = some op ∧ w ∈ op.wires := by
  rw [wire_indices, List.mem_filter, List.mem_range, opHasWire_iff]
  constructor
  · exact fun h => h.2
  · rintro ⟨op, hop, hw⟩
    refine ⟨?_, op, hop, hw⟩
    by_contra hlen
    rw [not_lt] at hlen
    rw [List.get?_eq_none.mpr hlen] at hop
    cases hop

/-- The constructed edge list realizes exactly the spec's declarative
nearest-subsequent-per-shared-wire condition. -/
theorem mem_buildEdges {ops : List Operation} {a b : Nat} :
    (a, b) ∈ buildEdges ops ↔ nearestSubsequentOnWire ops a b := by
  rw [buildEdges, List.mem_flatMap]
  constructor
  · rintro ⟨w, _, hpair⟩
    obtain ⟨ha, hb, hab, hbet⟩ := (consecPairs_mem (wire_indices_pairwise ops w)).mp hpair
    obtain ⟨oa, hoa, hwa⟩ := mem_wire_indices.mp ha
    obtain ⟨ob, hob, hwb⟩ := mem_wire_indices.mp hb
    refine ⟨w, oa, ob, hoa, hob, hwa, hwb, hab, ?_⟩
    intro k ok hak hkb hk hwk
    exact hbet k (mem_wire_indices.mpr ⟨ok, hk, hwk⟩) hak hkb
  · rintro ⟨w, oa, ob, hoa, hob, hwa, hwb, hab, hnone⟩
    refine ⟨w, ?_, ?_⟩
    · rw [List.mem_dedup, List.mem_flatten]
      exact ⟨oa.wires, List.mem_map_of_mem Operation.wires (List.get?_mem hoa), hwa⟩
    · rw [consecPairs_mem (wire_indices_pairwise ops w)]
      refine ⟨mem_wire_indices.mpr ⟨oa, hoa, hwa⟩,
        mem_wire_indices.mpr ⟨ob, hob, hwb⟩, hab, ?_⟩
      intro k hk hak hkb
      obtain ⟨ok, hok, hwk⟩ := mem_wire_indices.mp hk
      exact hnone k ok hak hkb hok hwk

/-!
## Helper lemmas: reachability and acyclicity
-/

/-- Every positive result of the fuel-bounded search is a genuine path. -/
theorem reachFuel_reaches {c : CircuitGraph} :
    ∀ {f a b : Nat}, c.reachFuel f a b = true → c.Reaches a b := by
  intro f
  induction f with
  | zero => intro a b h; simp [CircuitGraph.reachFuel] at h
  | succ f ih =>
    intro a b h
    rw [CircuitGraph.reachFuel] at h
    rw [Bool.or_eq_true] at h
    rcases h with h1 | h2
    · exact .single h1
    · obtain ⟨m, _, hconj⟩ := List.any_eq_true.mp h2
      rw [Bool.and_eq_true] at hconj
      obtain ⟨he, hr⟩ := hconj
      exact .cons he (ih hr)

/-- When all edges point forward in the queue, so do all paths. -/
theorem reaches_lt {c : CircuitGraph} (hE : ∀ e ∈ c.edges, e.1 < e.2)
    {a b : Nat} (h : c.Reaches a b) : a < b := by
  induction h with
  | single h => exact hE _ (of_decide_eq_true h)
  | cons h _ ih =>
    have := hE _ (of_decide_eq_true h)
    omega

/-- Every edge of a constructed graph points forward in the queue. -/
theorem fromOps_edges_forward (ops : List Operation) (vd : List (Nat × List Nat)) :
    ∀ e ∈ (CircuitGraph.fromOps ops vd).edges, e.1 < e.2 := by
  rintro ⟨a, b⟩ h
  obtain ⟨w, oa, ob, -, -, -, -, hab, -⟩ := mem_buildEdges.mp h
  exact hab

/-- No node of a forward-edged graph is its own strict ancestor. -/
theorem isAncestor_self_false {c : CircuitGraph}
    (hE : ∀ e ∈ c.edges, e.1 < e.2) (m : Nat) :
    c.isAncestor m m = false := by
  by_contra h
  rw [Bool.not_eq_false] at h
  exact absurd (reaches_lt hE (reachFuel_reaches h)) (lt_irrefl m)

/-!
## Helper lemmas: the layering scan
-/

/-- One scan step appends exactly the operation being placed. -/
theorem layerStep_flatOps (c : CircuitGraph) (pIdx : Nat)
    (acc : List Layer × Layer) (opIdx : Nat) :
    flatOps (layerStep c pIdx acc opIdx) = flatOps acc ++ [opIdx] := by
  unfold layerStep flatOps
  split
  · simp
  · simp

/-- The inner scan over one parameter's operations appends exactly those
operations. -/
theorem foldl_layerStep_flatOps (c : CircuitGraph) (pIdx : Nat) :
    ∀ (l : List Nat) (acc : List Layer × Layer),
      flatOps (l.foldl (layerStep c pIdx) acc) = flatOps acc ++ l := by
  intro l
  induction l with
  | nil => intro acc; simp
  | cons o rest ih =>
    intro acc
    rw [List.foldl_cons, ih, layerStep_flatOps]
    simp

/-- The full scan over `variable_deps` places exactly the listed operations,
in listing order. -/
theorem foldl_entries_flatOps (c : CircuitGraph) :
    ∀ (l : List (Nat × List Nat)) (acc : List Layer × Layer),
      flatOps (l.foldl (fun acc pe => pe.2.foldl (layerStep c pe.1) acc) acc) =
        flatOps acc ++ l.flatMap Prod.snd := by
  intro l
  induction l with
  | nil => intro acc; simp
  | cons pe rest ih =>
    intro acc
    rw [List.foldl_cons, ih, foldl_layerStep_flatOps]
    simp

/-- The concatenation of the layers' operation lists is exactly the list of
operations carried by `variable_deps`, in order. -/
theorem layers_flatMap_ops (c : CircuitGraph) :
    c.layers.flatMap Layer.ops = c.variable_deps.flatMap Prod.snd := by
  have h := foldl_entries_flatOps c c.variable_deps ([], ⟨[], []⟩)
  simp only [flatOps] at h
  rw [CircuitGraph.layers]
  simp only [List.flatMap_append] at h ⊢
  simpa using h

/-- A scan step preserves the invariant, provided the placed pair is drawn
from `variable_deps`. -/
theorem layerStep_ok {c : CircuitGraph} {pIdx opIdx : Nat}
    {acc : List Layer × Layer}
    (hpe : ∃ e ∈ c.variable_deps, e.1 = pIdx ∧ opIdx ∈ e.2)
    (h : AccOk c acc) : AccOk c (layerStep c pIdx acc opIdx) := by
  unfold layerStep
  split
  · refine ⟨?_, ?_, rfl, ?_⟩
    · intro l hl
      rcases List.mem_append.mp hl with h1 | h2
      · exact h.1 l h1
      · rw [List.mem_singleton] at h2
        subst h2
        exact h.2
    · simp
    · intro q hq
      rw [List.zip_cons_cons, List.zip_nil_right, List.mem_singleton] at hq
      subst hq
      exact hpe
  · next hcond =>
    refine ⟨h.1, ?_, ?_, ?_⟩
    · rw [List.pairwise_append]
      refine ⟨h.2.1, by simp, ?_⟩
      intro a ha b hb
      rw [List.mem_singleton] at hb
      subst hb
      rw [Bool.not_eq_true, List.any_eq_false] at hcond
      simpa using hcond a ha
    · simp [h.2.2.1]
    · intro q hq
      rw [List.zip_append h.2.2.1, List.mem_append] at hq
      rcases hq with h1 | h2
      · exact h.2.2.2 q h1
      · rw [List.zip_cons_cons, List.zip_nil_right, List.mem_singleton] at h2
        subst h2
        exact hpe

/-- Fold preservation for a membership-conditioned invariant. -/
theorem foldl_preserve_mem {α β : Type} {P : β → Prop} {f : β → α → β} :
    ∀ (l : List α), (∀ b a, a ∈ l → P b → P (f b a)) → ∀ b, P b → P (l.foldl f b) := by
  intro l
  induction l with
  | nil => intro _ b h; exact h
  | cons x xs ih =>
    intro hf b h
    exact ih (fun b a ha => hf b a (List.mem_cons_of_mem x ha)) _
      (hf b x (List.mem_cons_self x xs) h)

/-- Every layer produced by the scan satisfies the invariant. -/
theorem layers_ok (c : CircuitGraph) : ∀ l ∈ c.layers, LayerOk c l := by
  have hinit : AccOk c ([], ⟨[], []⟩) := by
    constructor
    · intro l hl
      cases hl
    · refine ⟨by simp, by simp, ?_⟩
      intro q hq
      simp at hq
  have hend : AccOk c (c.variable_deps.foldl
      (fun acc pe => pe.2.foldl (layerStep c pe.1) acc) ([], ⟨[], []⟩)) := by
    refine foldl_preserve_mem c.variable_deps ?_ _ hinit
    intro acc pe hpe hacc
    refine foldl_preserve_mem pe.2 ?_ acc hacc
    intro acc2 opIdx hop hacc2
    exact layerStep_ok ⟨pe, hpe, rfl, hop⟩ hacc2
  intro l hl
  rw [CircuitGraph.layers] at hl
  rcases List.mem_append.mp hl with h1 | h2
  · exact hend.1 l h1
  · rw [List.mem_singleton] at h2
    subst h2
    exact hend.2

/-!
## Claim theorems
-/

/-- C1: for a `CircuitGraph` built from an ordered list of operations
followed by observables, the derived graph contains an edge `(a, b)` if and
only if, for some wire shared by `a` and `b`, `b` is the closest operation
or observable subsequent to `a` in declaration order touching that wire; in
particular no edges beyond these (no redundant transitive edges) are
present. -/
theorem edge_iff_nearest_subsequent (ops : List Operation)
    (vd : List (Nat × List Nat)) (a b : Nat) :
    (a, b) ∈ (CircuitGraph.fromOps ops vd).edges ↔
      nearestSubsequentOnWire ops a b :=
  mem_buildEdges

/-- C5: for every circuit and wire `w`, `wire_indices w` returns exactly the
queue indices, in declaration (increasing) order, of the operations and
observables whose wire set contains `w`. -/
theorem wire_indices_correct (c : CircuitGraph) (w : Nat) :
    (∀ i, i ∈ c.wire_indices w ↔
      ∃ op, c.queue.get? i = some op ∧ w ∈ op.wires) ∧
    (c.wire_indices w).Pairwise (· < ·) :=
  ⟨fun _ => mem_wire_indices, wire_indices_pairwise c.queue w⟩

/-- C7: for every list of operations whose wire sets are pairwise disjoint,
the circuit built from it has one node per queue entry and an empty edge
list. -/
theorem disjoint_wires_no_edges (ops : List Operation)
    (vd : List (Nat × List Nat))
    (h : ops.Pairwise (fun o1 o2 => ∀ w ∈ o1.wires, w ∉ o2.wires)) :
    (CircuitGraph.fromOps ops vd).edges = [] ∧
    (CircuitGraph.fromOps ops vd).nodes = List.range ops.length := by
  refine ⟨?_, rfl⟩
  rw [List.eq_nil_iff_forall_not_mem]
  rintro ⟨a, b⟩ hmem
  obtain ⟨w, oa, ob, hoa, hob, hwa, hwb, hab, -⟩ := mem_buildEdges.mp hmem
  obtain ⟨ha, hga⟩ := List.get?_eq_some.mp hoa
  obtain ⟨hb, hgb⟩ := List.get?_eq_some.mp hob
  have hp := List.pairwise_iff_get.mp h ⟨a, ha⟩ ⟨b, hb⟩ hab
  rw [hga, hgb] at hp
  exact hp w hwa hwb

/-- C7 witness: two single-wire gates on distinct wires yield the two-node,
zero-edge graph. -/
theorem disjoint_wires_no_edges_witness :
    (CircuitGraph.fromOps
      [⟨"RX", [43], [0], false⟩, ⟨"RY", [35], [1], false⟩] []).edges = [] ∧
    (CircuitGraph.fromOps
      [⟨"RX", [43], [0], false⟩, ⟨"RY", [35], [1], false⟩] []).nodes =
      List.range 2 :=
  disjoint_wires_no_edges
    [⟨"RX", [43], [0], false⟩, ⟨"RY", [35], [1], false⟩] [] (by decide)

/-- C4 counterexample: in the circuit of the shipped `ops` fixture, node 6
(the `PauliX` gate) is a member of `ancestors (descendants [6])`: it is an
ancestor of its own descendant 8, so the claimed exclusion fails. -/
theorem ancestors_of_descendants_contains_node :
    exC.descendants [6] = [8] ∧ 6 ∈ exC.ancestors (exC.descendants [6]) := by
  decide

/-- C4 amended: the derived dependency graph is acyclic because every edge
points from an earlier to a later position in declaration order; hence no
node is its own strict ancestor. (The original set identity
`n ∉ ancestors(descendants({n}))` fails whenever `n` has a descendant, since
`n` is an ancestor of each of its descendants.) -/
theorem edges_forward_and_acyclic (ops : List Operation)
    (vd : List (Nat × List Nat)) (a b n : Nat)
    (h : (a, b) ∈ (CircuitGraph.fromOps ops vd).edges) :
    a < b ∧ (CircuitGraph.fromOps ops vd).isAncestor n n = false :=
  ⟨fromOps_edges_forward ops vd _ h,
    isAncestor_self_false (fromOps_edges_forward ops vd) n⟩

/-- C4 witness: the edge (0, 3) of the fixture circuit points forward, and
node 6 is not its own ancestor. -/
theorem edges_forward_and_acyclic_witness :
    (0 : Nat) < 3 ∧ exC.isAncestor 6 6 = false :=
  edges_forward_and_acyclic exOps [] 0 3 6 (by decide)

/-- C2 counterexample: in the circuit of the `parameterized_circuit`
fixture, queue entry 4 is an operation (the `Rotation` gate whose only
parameter is the constant 1), yet it occurs in no layer yielded by
`iterate_layers`, so the layers' union does not contain every operation. -/
theorem layers_union_omits_constant_gate :
    cvC.queue.get? 4 = some ⟨"Rotation", [1], [0], false⟩ ∧
    (⟨"Rotation", [1], [0], false⟩ : Operation).isObs = false ∧
    ¬ 4 ∈ cvC.iterate_layers.flatMap LayerData.ops := by
  decide

/-- C2 amended: the operation sets of the layers yielded by
`iterate_layers`, taken in order and concatenated, are exactly the
operations carried by `variable_deps` (those depending on at least one free
symbolic parameter), in processing order — each listed occurrence exactly
once; operations with no free parameter appear in no layer. -/
theorem iterate_layers_union_eq_free_param_ops (c : CircuitGraph) :
    c.iterate_layers.flatMap LayerData.ops =
      c.variable_deps.flatMap Prod.snd := by
  rw [CircuitGraph.iterate_layers, List.flatMap_map]
  exact layers_flatMap_ops c

/-- C3 counterexample: the `layers` property of the `parameterized_circuit`
fixture places queue entry 4 — an operation — in no layer, so `layers` does
not partition the circuit's operations. -/
theorem layers_do_not_partition_operations :
    cvC.queue.get? 4 = some ⟨"Rotation", [1], [0], false⟩ ∧
    (⟨"Rotation", [1], [0], false⟩ : Operation).isObs = false ∧
    cvC.layers.flatMap Layer.ops = [0, 1, 2, 3, 5, 6] := by
  decide

/-- C3 amended: the `layers` property groups the operations that depend on
free numeric parameters (those listed in `variable_deps`) into layers with
no internal wire dependency — within a layer no operation is an ancestor of
a later-placed one — each layer tagged with one free-parameter index per
operation, every (parameter, operation) pair drawn from `variable_deps`;
operations with no free parameter are omitted, and the greedy grouping need
not be maximal. -/
theorem layers_no_internal_dependence (c : CircuitGraph) (l : Layer)
    (h : l ∈ c.layers) :
    l.ops.Pairwise (fun a b => c.isAncestor a b = false) ∧
    l.param_inds.length = l.ops.length ∧
    ∀ q ∈ l.param_inds.zip l.ops,
      ∃ e ∈ c.variable_deps, e.1 = q.1 ∧ q.2 ∈ e.2 :=
  layers_ok c l h

/-- C3 witness: the first layer of the fixture circuit satisfies the
amended property. -/
theorem layers_no_internal_dependence_witness :
    (⟨[0, 1, 2], [0, 1, 2]⟩ : Layer).ops.Pairwise
      (fun a b => cvC.isAncestor a b = false) ∧
    (⟨[0, 1, 2], [0, 1, 2]⟩ : Layer).param_inds.length =
      (⟨[0, 1, 2], [0, 1, 2]⟩ : Layer).ops.length ∧
    ∀ q ∈ (⟨[0, 1, 2], [0, 1, 2]⟩ : Layer).param_inds.zip
      (⟨[0, 1, 2], [0, 1, 2]⟩ : Layer).ops,
      ∃ e ∈ cvC.variable_deps, e.1 = q.1 ∧ q.2 ∈ e.2 :=
  layers_no_internal_dependence cvC ⟨[0, 1, 2], [0, 1, 2]⟩ (by decide)

/-- C6: `update_node` replaces the node at the old node's queue position by
the new operation: the new operation occupies that position, every stored
edge (in particular every edge incident to the node) is unchanged, and all
other queue entries, the queue length, and `variable_deps` are untouched. -/
theorem update_node_spec (c : CircuitGraph) (oldIdx : Nat) (new : Operation)
    (h : oldIdx < c.queue.length) :
    (c.update_node oldIdx new).queue.get? oldIdx = some new ∧
    (∀ j, j ≠ oldIdx →
      (c.update_node oldIdx new).queue.get? j = c.queue.get? j) ∧
    (c.update_node oldIdx new).edges = c.edges ∧
    (c.update_node oldIdx new).variable_deps = c.variable_deps ∧
    (c.update_node oldIdx new).queue.length = c.queue.length := by
  refine ⟨?_, ?_, rfl, rfl, by simp [CircuitGraph.update_node]⟩
  · simp only [CircuitGraph.update_node]
    rw [List.get?_eq_getElem?]
    simp [List.getElem?_set_self, h]
  · intro j hj
    simp only [CircuitGraph.update_node]
    rw [List.get?_eq_getElem?, List.get?_eq_getElem?]
    rw [List.getElem?_set_ne (by omega)]

/-- C6 witness: replacing the fixture circuit's first gate by a retuned
`RX` keeps every edge and every other queue entry. -/
theorem update_node_spec_witness :
    (exC.update_node 0 ⟨"RX", [1], [0], false⟩).queue.get? 0 =
      some ⟨"RX", [1], [0], false⟩ ∧
    (∀ j, j ≠ 0 →
      (exC.update_node 0 ⟨"RX", [1], [0], false⟩).queue.get? j =
        exC.queue.get? j) ∧
    (exC.update_node 0 ⟨"RX", [1], [0], false⟩).edges = exC.edges ∧
    (exC.update_node 0 ⟨"RX", [1], [0], false⟩).variable_deps =
      exC.variable_deps ∧
    (exC.update_node 0 ⟨"RX", [1], [0], false⟩).queue.length =
      exC.queue.length :=
  update_node_spec exC 0 ⟨"RX", [1], [0], false⟩ (by decide)

/-- C8: for every argument `op` that is not an `Observable`, each of
`expval`, `var` and `sample` raises a `QuantumFunctionError` naming the
function, rather than returning a value. -/
theorem nonobservable_raises (op : OpNode) (s : MState)
    (h : op.isObservable = false) :
    (expval op s).2 = .error
      (.err (op.name ++ " is not an observable: cannot be used with expval")) ∧
    (var op s).2 = .error
      (.err (op.name ++ " is not an observable: cannot be used with var")) ∧
    (sample op s).2 = .error
      (.err (op.name ++ " is not an observable: cannot be used with sample")) := by
  simp [expval, var, sample, h]

/-- C8 witness: the non-observable `RX` gate makes all three measurement
functions raise. -/
theorem nonobservable_raises_witness :
    (expval rxGate exState).2 = .error
      (.err (rxGate.name ++ " is not an observable: cannot be used with expval")) ∧
    (var rxGate exState).2 = .error
      (.err (rxGate.name ++ " is not an observable: cannot be used with var")) ∧
    (sample rxGate exState).2 = .error
      (.err (rxGate.name ++ " is not an observable: cannot be used with sample")) :=
  nonobservable_raises rxGate exState rfl

/-- C9: each measurement function tags the observable it returns with its
return-kind: for every `Observable` argument, `expval` assigns
`Expectation`, `var` assigns `Variance`, `sample` assigns `Sample`, and each
returns the tagged operator; `probs` builds and returns an observable tagged
`Probability` on the requested wires. -/
theorem return_type_tagging (op : OpNode) (s : MState) (ws : List Nat)
    (freshId : Nat) (h : op.isObservable = true) :
    get_return_type (expval op s).1.return_types op.id =
      some ReturnType.Expectation ∧
    (expval op s).2 = Except.ok op.id ∧
    get_return_type (var op s).1.return_types op.id =
      some ReturnType.Variance ∧
    (var op s).2 = Except.ok op.id ∧
    get_return_type (sample op s).1.return_types op.id =
      some ReturnType.Sample ∧
    (sample op s).2 = Except.ok op.id ∧
    get_return_type (probs ws freshId s).1.return_types freshId =
      some ReturnType.Probability ∧
    (probs ws freshId s).2.wires = ws ∧
    (probs ws freshId s).2.id = freshId := by
  cases hc : s.context with
  | none =>
    simp [expval, var, sample, probs, h, hc, get_return_type, set_return_type]
  | some ctx =>
    simp [expval, var, sample, probs, h, hc, get_return_type, set_return_type]

/-- C9 witness: the observable `PauliY` is tagged `Expectation` /
`Variance` / `Sample` by the three functions, and `probs` yields a
`Probability`-tagged observable on wires `[0, 1]`. -/
theorem return_type_tagging_witness :
    get_return_type (expval pauliYObs exState).1.return_types pauliYObs.id =
      some ReturnType.Expectation ∧
    (expval pauliYObs exState).2 = Except.ok pauliYObs.id ∧
    get_return_type (var pauliYObs exState).1.return_types pauliYObs.id =
      some ReturnType.Variance ∧
    (var pauliYObs exState).2 = Except.ok pauliYObs.id ∧
    get_return_type (sample pauliYObs exState).1.return_types pauliYObs.id =
      some ReturnType.Sample ∧
    (sample pauliYObs exState).2 = Except.ok pauliYObs.id ∧
    get_return_type (probs [0, 1] 2 exState).1.return_types 2 =
      some ReturnType.Probability ∧
    (probs [0, 1] 2 exState).2.wires = [0, 1] ∧
    (probs [0, 1] 2 exState).2.id = 2 :=
  return_type_tagging pauliYObs exState [0, 1] 2 rfl

/-- C10: when `expval`, `var` or `sample` raises because its argument is not
an `Observable`, the raise happens before any mutation: the whole
measurement state — every operator's `return_type`, the context's operation
queue and its observable queue — is exactly the input state. -/
theorem error_leaves_state_unchanged (op : OpNode) (s : MState)
    (h : op.isObservable = false) :
    (expval op s).1 = s ∧ (var op s).1 = s ∧ (sample op s).1 = s := by
  simp [expval, var, sample, h]

/-- C10 witness: the failing `expval`/`var`/`sample` calls on the `RX` gate
leave the example state untouched. -/
theorem error_leaves_state_unchanged_witness :
    (expval rxGate exState).1 = exState ∧
    (var rxGate exState).1 = exState ∧
    (sample rxGate exState).1 = exState :=
  error_leaves_state_unchanged rxGate exState rfl
